import Mathlib

/-!
Shallow embedding of `src/leaflet.smoothmarkerbouncing.js`
(Leaflet.SmoothMarkerBouncing) together with a verification of its
timeline calculator, geometry engine, bouncing registry and scheduler
cycle logic.

Conventions:
* JavaScript numbers holding integer quantities are modelled as `Int`
  (or `Nat` where the source only ever receives naturals).
* `Math.round(a / b)` on integers is modelled exactly by `jsRound`; for
  the magnitudes the plugin handles, the double-precision quotient
  rounds to the same integer as the exact rational.
* Loops whose termination depends on the inputs are modelled with an
  explicit fuel parameter returning `Option`: `none` means the loop has
  not exited within `fuel` iterations; divergence of a loop is the
  statement that every fuel bound yields `none`.
* The memoization cache `_bouncingMotionsCache` is not modelled: on a
  cache hit the source returns the value previously computed for the
  same key, so cached and uncached results coincide and the cache key
  string does not influence the computed value.
-/

namespace SMB

/-- `Math.round(a / b)` for integers with `b > 0`:
`⌊a/b + 1/2⌋ = ⌊(2a+b)/(2b)⌋`, using flooring integer division. -/
def jsRound (a b : Int) : Int := Int.fdiv (2 * a + b) (2 * b)

/-- First loop of `calculateSteps` (source lines 322-325):
`i = 1; while (i <= height) steps.push(i++)`.  The loop runs at most
`height` times, so any `fuel ≥ height + 1 - i` reproduces it exactly. -/
def stepsUpLoop (height : Nat) : Nat → Nat → List Nat → List Nat
  | 0, _, acc => acc
  | fuel + 1, i, acc =>
    if i ≤ height then stepsUpLoop height fuel (i + 1) (acc ++ [i]) else acc

/-- Second loop of `calculateSteps` (source lines 327-330):
`i = height; while (i--) steps.push(i)`, which pushes
`height-1, height-2, …, 0`. -/
def stepsDownLoop : Nat → List Nat → List Nat
  | 0, acc => acc
  | i + 1, acc => stepsDownLoop i (acc ++ [i])

/-- `calculateSteps(height, key)` (source lines 309-336); the cache is
omitted (see module docstring), the key string does not affect the value. -/
def calculateSteps (height : Nat) : List Nat :=
  stepsDownLoop height (stepsUpLoop height (height + 1) 1 [])

lemma stepsUpLoop_eq (height : Nat) :
    ∀ fuel i acc, height + 1 ≤ fuel + i →
      stepsUpLoop height fuel i acc = acc ++ List.range' i (height + 1 - i) := by
  intro fuel
  induction fuel with
  | zero =>
    intro i acc h
    have h0 : height + 1 - i = 0 := by omega
    simp [stepsUpLoop, h0]
  | succ f ih =>
    intro i acc h
    by_cases hi : i ≤ height
    · have h1 : height + 1 - i = (height - i) + 1 := by omega
      have h2 : height + 1 - (i + 1) = height - i := by omega
      rw [stepsUpLoop, if_pos hi, ih (i + 1) (acc ++ [i]) (by omega), h1,
        List.range'_succ, h2]
      simp
    · have h0 : height + 1 - i = 0 := by omega
      rw [stepsUpLoop, if_neg hi]
      simp [h0]

lemma stepsDownLoop_eq : ∀ i acc, stepsDownLoop i acc = acc ++ (List.range i).reverse := by
  intro i
  induction i with
  | zero => intro acc; simp [stepsDownLoop]
  | succ n ih =>
    intro acc
    rw [stepsDownLoop, ih, List.range_succ]
    simp

lemma calculateSteps_eq (height : Nat) :
    calculateSteps height = List.range' 1 height ++ (List.range height).reverse := by
  rw [calculateSteps, stepsUpLoop_eq height (height + 1) 1 [] (by omega),
    stepsDownLoop_eq]
  simp

/-- C3: for every extent `h ≥ 1` (and any cache key), `calculateSteps`
returns exactly the rise-then-fall sequence `[1, 2, …, h, h-1, …, 1, 0]`,
of length `2·h`. -/
theorem calculateSteps_spec (h : Nat) (hh : 1 ≤ h) :
    calculateSteps h = List.range' 1 h ++ (List.range h).reverse ∧
    (calculateSteps h).length = 2 * h := by
  refine ⟨calculateSteps_eq h, ?_⟩
  rw [calculateSteps_eq]
  simp
  omega

/-- Witness for `calculateSteps_spec` at `h = 3`. -/
theorem calculateSteps_spec_witness :
    1 ≤ 3 ∧ (calculateSteps 3 = List.range' 1 3 ++ (List.range 3).reverse ∧
      (calculateSteps 3).length = 2 * 3) :=
  ⟨by decide, calculateSteps_spec 3 (by decide)⟩

/-- The delta-filling loop of `calculateDelays` (source lines 371-374):
`i = height; while (--i) { deltas[i] = Math.round(speed / (height - i)); }`.
The loop decrements `i` first and exits only when the decremented value is
exactly `0`; starting from `height ≤ 0` it therefore never exits.  `fuel`
bounds the number of iterations; the accumulator collects the values written
at indices `i-1, i-2, …, 1` so that the returned list is
`[deltas[1], …, deltas[i₀-1]]` on the terminating path. -/
def fillLoop (height speed : Int) : Nat → Int → List Int → Option (List Int)
  | 0, _, _ => none
  | fuel + 1, i, acc =>
    if i - 1 = 0 then some acc
    else fillLoop height speed fuel (i - 1) (jsRound speed (height - (i - 1)) :: acc)

/-- Running total loop of `calculateDelays` (source lines 384-387):
`totalDelay += deltas[i]; delays.push(totalDelay)`. -/
def cumsumFrom (total : Int) : List Int → List Int
  | [] => []
  | d :: ds => (total + d) :: cumsumFrom (total + d) ds

/-- Cumulative sums of a list, starting from a total of `0`. -/
def cumsum (l : List Int) : List Int := cumsumFrom 0 l

/-- `calculateDelays(height, speed, key)` (source lines 353-393), cache
omitted.  After the delta loop the source holds
`deltas = [0, deltas[1], …, deltas[height-1], speed]`; the mirror loop
`i = height; while (i--) deltas.push(deltas[i])` appends the reverse of the
first `height` entries, and the result is the running total of that list.
`none` means the delta loop did not exit within `fuel` iterations. -/
def calculateDelaysFuel (height speed : Int) (fuel : Nat) : Option (List Int) :=
  (fillLoop height speed fuel height []).map (fun mid =>
    let oneWay := 0 :: (mid ++ [speed])
    cumsum (oneWay ++ (oneWay.take height.toNat).reverse))

/-- `calculateDelays` with the fuel bound `height.toNat`, which is enough
for every terminating run of the source loop. -/
def calculateDelays (height speed : Int) : Option (List Int) :=
  calculateDelaysFuel height speed height.toNat

/-- The delta loop of `calculateDelays` never exits, whatever iteration
bound is allowed. -/
def calculateDelaysDiverges (height speed : Int) : Prop :=
  ∀ fuel, calculateDelaysFuel height speed fuel = none

/-- The one-way delta array `deltas[0..height]` as the source assigns it
(lines 369-374): `deltas[height] = speed; deltas[0] = 0;` and
`deltas[i] = Math.round(speed / (height - i))` for `0 < i < height`. -/
def deltasOneWay (height : Nat) (speed : Int) : List Int :=
  (List.range (height + 1)).map (fun i =>
    if i = 0 then 0
    else if i = height then speed
    else jsRound speed ((height : Int) - (i : Int)))

/-- The mirrored delta sequence: the one-way deltas followed by the
reverse of their first `height` entries (source lines 377-380). -/
def deltasMirrored (height : Nat) (speed : Int) : List Int :=
  deltasOneWay height speed ++ ((deltasOneWay height speed).take height).reverse

lemma fillLoop_nonpos (height speed : Int) :
    ∀ fuel i acc, i ≤ 0 → fillLoop height speed fuel i acc = none := by
  intro fuel
  induction fuel with
  | zero => intro i acc _; rfl
  | succ f ih =>
    intro i acc hi
    rw [fillLoop, if_neg (by omega)]
    exact ih (i - 1) _ (by omega)

lemma fillLoop_pos (height speed : Int) :
    ∀ n : Nat, 1 ≤ n → ∀ fuel acc, n ≤ fuel →
      fillLoop height speed fuel (n : Int) acc =
        some ((List.range' 1 (n - 1)).map
          (fun j : Nat => jsRound speed (height - (j : Int))) ++ acc) := by
  intro n
  induction n with
  | zero => intro h; omega
  | succ m ih =>
    intro _ fuel acc hfuel
    match fuel, hfuel with
    | f + 1, hfuel =>
      by_cases hm : m = 0
      · subst hm
        rw [fillLoop, if_pos (by norm_num)]
        simp
      · have hc : ((m + 1 : Nat) : Int) - 1 = (m : Int) := by push_cast; ring
        have hne : ¬ ((m : Int) = 0) := by exact_mod_cast hm
        rw [fillLoop, hc, if_neg hne, ih (by omega) f _ (by omega)]
        have h3 : List.range' 1 (m + 1 - 1) = List.range' 1 (m - 1) ++ [m] := by
          have hm1 : m + 1 - 1 = (m - 1) + 1 := by omega
          rw [hm1, List.range'_concat]
          congr 2
          omega
        rw [h3, List.map_append]
        simp

lemma length_cumsumFrom (t : Int) : ∀ l : List Int, (cumsumFrom t l).length = l.length := by
  intro l
  induction l generalizing t with
  | nil => rfl
  | cons d ds ih => simp [cumsumFrom, ih]

lemma length_cumsum (l : List Int) : (cumsum l).length = l.length :=
  length_cumsumFrom 0 l

lemma deltasOneWay_decomp (h : Nat) (s : Int) (hh : 1 ≤ h) :
    deltasOneWay h s =
      0 :: ((List.range' 1 (h - 1)).map (fun j : Nat => jsRound s ((h : Int) - (j : Int)))
        ++ [s]) := by
  have h1 : List.range' 1 h = List.range' 1 (h - 1) ++ [h] := by
    have hm1 : h = (h - 1) + 1 := by omega
    conv_lhs => rw [hm1]
    rw [List.range'_concat]
    congr 2
    omega
  have hne : h ≠ 0 := by omega
  have hmid : (List.range' 1 (h - 1)).map (fun i =>
      if i = 0 then (0 : Int) else if i = h then s else jsRound s ((h : Int) - (i : Int)))
      = (List.range' 1 (h - 1)).map (fun j : Nat => jsRound s ((h : Int) - (j : Int))) := by
    apply List.map_congr_left
    intro j hj
    have hj' := List.mem_range'_1.mp hj
    have hj0 : j ≠ 0 := by omega
    have hjh : j ≠ h := by omega
    simp [hj0, hjh]
  rw [deltasOneWay, List.range_eq_range', List.range'_succ, h1, List.map_cons,
    List.map_append, hmid]
  simp [hne]

lemma calculateDelaysFuel_eq (h : Nat) (s : Int) (hh : 1 ≤ h) :
    ∀ fuel, h ≤ fuel →
      calculateDelaysFuel (h : Int) s fuel = some (cumsum (deltasMirrored h s)) := by
  intro fuel hfuel
  rw [calculateDelaysFuel, fillLoop_pos (h : Int) s h hh fuel [] hfuel]
  rw [deltasMirrored, deltasOneWay_decomp h s hh]
  simp [Int.toNat_natCast]

lemma length_deltasOneWay (h : Nat) (s : Int) :
    (deltasOneWay h s).length = h + 1 := by
  simp [deltasOneWay]

lemma length_deltasMirrored (h : Nat) (s : Int) :
    (deltasMirrored h s).length = 2 * h + 1 := by
  rw [deltasMirrored]
  simp [length_deltasOneWay]
  omega

lemma jsRound_nonneg {a b : Int} (ha : 0 ≤ a) (hb : 0 ≤ b) : 0 ≤ jsRound a b :=
  Int.fdiv_nonneg (by omega) (by omega)

lemma deltasOneWay_nonneg (h : Nat) (s : Int) (hs : 0 ≤ s) :
    ∀ d ∈ deltasOneWay h s, 0 ≤ d := by
  intro d hd
  rw [deltasOneWay] at hd
  obtain ⟨i, hi, rfl⟩ := List.mem_map.mp hd
  by_cases h0 : i = 0
  · simp [h0]
  · by_cases hih : i = h
    · have hne : h ≠ 0 := fun hc => h0 (hih.trans hc)
      simp [h0, hih, hne, hs]
    · have hik : i < h + 1 := List.mem_range.mp hi
      simp only [h0, hih, if_false]
      exact jsRound_nonneg hs (by omega)

lemma deltasMirrored_nonneg (h : Nat) (s : Int) (hs : 0 ≤ s) :
    ∀ d ∈ deltasMirrored h s, 0 ≤ d := by
  intro d hd
  rw [deltasMirrored] at hd
  rcases List.mem_append.mp hd with hd1 | hd2
  · exact deltasOneWay_nonneg h s hs d hd1
  · exact deltasOneWay_nonneg h s hs d
      (List.take_subset _ _ (List.mem_reverse.mp hd2))

lemma chain_cumsumFrom :
    ∀ (l : List Int) (t : Int), (∀ d ∈ l, 0 ≤ d) →
      List.Chain (· ≤ ·) t (cumsumFrom t l) := by
  intro l
  induction l with
  | nil => intro t _; exact List.Chain.nil
  | cons d ds ih =>
    intro t hnn
    rw [cumsumFrom]
    exact List.Chain.cons (by have := hnn d (by simp); omega)
      (ih (t + d) (fun x hx => hnn x (by simp [hx])))

lemma chain'_cumsum (l : List Int) (hnn : ∀ d ∈ l, 0 ≤ d) :
    List.Chain' (· ≤ ·) (cumsum l) := by
  have hc := chain_cumsumFrom l 0 hnn
  rw [cumsum]
  cases hE : cumsumFrom 0 l with
  | nil => exact List.chain'_nil
  | cons x xs =>
    rw [hE] at hc
    exact (List.chain_cons.mp hc).2

/-- C1 (amended): for every extent `h ≥ 1` and every speed, the array
returned by `calculateDelays` has length `2·h + 1` (the one-way delta
array holds `h + 1` entries — the zero delta at index 0, the rounded
deltas, the peak delta at index `h` — and the mirror loop appends `h`
more before the running total is taken). -/
theorem calculateDelays_length (h : Nat) (s : Int) (hh : 1 ≤ h) :
    (calculateDelays (h : Int) s).map List.length = some (2 * h + 1) := by
  have ht : ((h : Int)).toNat = h := Int.toNat_natCast h
  rw [calculateDelays, ht, calculateDelaysFuel_eq h s hh h le_rfl]
  simp [length_cumsum, length_deltasMirrored]

/-- Witness for `calculateDelays_length` at `h = 2`, `s = 52`. -/
theorem calculateDelays_length_witness :
    1 ≤ 2 ∧ (calculateDelays ((2 : Nat) : Int) 52).map List.length = some (2 * 2 + 1) :=
  ⟨by decide, calculateDelays_length 2 52 (by decide)⟩

/-- C1 (counterexample): at extent `1` and speed `52` the delay array is
`[0, 52, 52]`, of length `3`, not `2·1 = 2` as claimed. -/
theorem calculateDelays_length_counterexample :
    calculateDelays 1 52 = some [0, 52, 52] ∧
    (calculateDelays 1 52).map List.length ≠ some (2 * 1) := by
  constructor
  · rfl
  · decide

/-- C2: for every extent `h ≥ 1` and speed `s ≥ 1`, the returned array is
the running total of the mirrored delta sequence, whose one-way part has
delta `0` at index `0`, `Math.round(s / (h - i))` at indices `0 < i < h`,
and exactly `s` at the full extent `h`; consequently the returned array is
non-decreasing. -/
theorem calculateDelays_deltas_spec (h : Nat) (s : Int) (hh : 1 ≤ h) (hs : 1 ≤ s) :
    calculateDelays (h : Int) s = some (cumsum (deltasMirrored h s)) ∧
    (deltasOneWay h s)[0]? = some 0 ∧
    (deltasOneWay h s)[h]? = some s ∧
    (∀ i : Nat, 1 ≤ i → i < h →
      (deltasOneWay h s)[i]? = some (jsRound s ((h : Int) - (i : Int)))) ∧
    List.Chain' (· ≤ ·) (cumsum (deltasMirrored h s)) := by
  have ht : ((h : Int)).toNat = h := Int.toNat_natCast h
  refine ⟨?_, ?_, ?_, ?_, ?_⟩
  · rw [calculateDelays, ht]
    exact calculateDelaysFuel_eq h s hh h le_rfl
  · rw [deltasOneWay]
    rw [List.getElem?_map, List.getElem?_range (by omega)]
    simp
  · rw [deltasOneWay]
    rw [List.getElem?_map, List.getElem?_range (by omega)]
    have hne : h ≠ 0 := by omega
    simp [hne]
  · intro i hi1 hih
    rw [deltasOneWay]
    rw [List.getElem?_map, List.getElem?_range (by omega)]
    have h0 : i ≠ 0 := by omega
    have h1 : i ≠ h := by omega
    simp [h0, h1]
  · exact chain'_cumsum _ (deltasMirrored_nonneg h s (by omega))

/-- Witness for `calculateDelays_deltas_spec` at `h = 2`, `s = 52`. -/
theorem calculateDelays_deltas_spec_witness :
    1 ≤ 2 ∧ (1 : Int) ≤ 52 ∧
    calculateDelays ((2 : Nat) : Int) 52 = some (cumsum (deltasMirrored 2 52)) ∧
    List.Chain' (· ≤ ·) (cumsum (deltasMirrored 2 52)) :=
  ⟨by decide, by decide,
    (calculateDelays_deltas_spec 2 52 (by decide) (by decide)).1,
    (calculateDelays_deltas_spec 2 52 (by decide) (by decide)).2.2.2.2⟩

/-- C6 (counterexample): at extent `0` the delta loop of `calculateDelays`
never exits (the decremented index skips `0` and goes negative forever),
so no iteration bound produces a result — in particular it does not
return the empty array. -/
theorem calculateDelays_zero_counterexample : calculateDelaysDiverges 0 52 := by
  intro fuel
  rw [calculateDelaysFuel, fillLoop_nonpos 0 52 fuel 0 [] le_rfl]
  rfl

/-- C6 (amended): at extent `0`, `calculateSteps` returns the empty
sequence, but `calculateDelays` does not terminate for any speed: its
delta loop `while (--i)` starts at `i = 0`, decrements past zero and
never exits. -/
theorem extent_zero_behavior :
    calculateSteps 0 = [] ∧ ∀ s : Int, calculateDelaysDiverges 0 s := by
  constructor
  · rfl
  · intro s fuel
    rw [calculateDelaysFuel, fillLoop_nonpos 0 s fuel 0 [] le_rfl]
    rfl

/-- The `while (true)` loop of `calculateLine` (source lines 124-138).
The error accumulator `err` takes half-integer values, so it is tracked
doubled (`err2 = 2·err`); the comparisons `e2 > -dx` and `e2 < dy` become
`err2 > -2·dx` and `err2 < 2·dy`, which is exact.  Each iteration pushes
the current point, increments the counter `i` and exits once it reaches
`length`; `fuel` bounds the iterations (for `length = 0` the counter can
never reach it and every fuel bound yields `none`, matching the
non-terminating source loop). -/
def lineLoop (dx dy sx sy : Int) (length : Nat) :
    Nat → Nat → Int → Int → Int → Option (List (Int × Int))
  | 0, _, _, _, _ => none
  | fuel + 1, i, x, y, err2 =>
    if i + 1 = length then some [(x, y)]
    else
      let e2 := err2
      let err2a := if e2 > -(2 * dx) then err2 - 2 * dy else err2
      let xa := if e2 > -(2 * dx) then x + sx else x
      let err2b := if e2 < 2 * dy then err2a + 2 * dx else err2a
      let ya := if e2 < 2 * dy then y + sy else y
      (lineLoop dx dy sx sy length fuel (i + 1) xa ya err2b).map
        (fun rest => (x, y) :: rest)

/-- `calculateLine(x, y, angle, length)` (source lines 106-141).  The
source computes the target point `(xD, yD)` by rounding
`(x + cos(angle)·2·length, y + sin(angle)·2·length)`; since those are the
only places the angle is used, the embedding takes the rounded integer
target directly, covering every possible angle. -/
def calculateLine (x y xD yD : Int) (length : Nat) : Option (List (Int × Int)) :=
  let dx := |xD - x|
  let sx : Int := if x < xD then 1 else -1
  let dy := |yD - y|
  let sy : Int := if y < yD then 1 else -1
  lineLoop dx dy sx sy length length 0 x y (if dx > dy then dx else -dy)

lemma lineLoop_spec (dx dy sx sy : Int) (length : Nat) :
    ∀ fuel i x y err2, i < length → length - i ≤ fuel →
      ∃ l, lineLoop dx dy sx sy length fuel i x y err2 = some l ∧
        l.length = length - i ∧ l.head? = some (x, y) := by
  intro fuel
  induction fuel with
  | zero => intro i x y err2 hi hfuel; omega
  | succ f ih =>
    intro i x y err2 hi hfuel
    by_cases hend : i + 1 = length
    · refine ⟨[(x, y)], ?_, by simp; omega, rfl⟩
      rw [lineLoop, if_pos hend]
    · have hi1 : i + 1 < length := by omega
      obtain ⟨l', hl', hlen', _⟩ := ih (i + 1)
        (if err2 > -(2 * dx) then x + sx else x)
        (if err2 < 2 * dy then y + sy else y)
        (if err2 < 2 * dy
          then (if err2 > -(2 * dx) then err2 - 2 * dy else err2) + 2 * dx
          else (if err2 > -(2 * dx) then err2 - 2 * dy else err2))
        hi1 (by omega)
      refine ⟨(x, y) :: l', ?_, by simp [hlen']; omega, rfl⟩
      rw [lineLoop, if_neg hend]
      simp only [hl']
      rfl

/-- C7: for every origin, every rounded target point (hence every angle)
and every `length ≥ 1`, `calculateLine` terminates and returns exactly
`length` points, the first of which is the origin `(x, y)`. -/
theorem calculateLine_spec (x y xD yD : Int) (length : Nat) (hl : 1 ≤ length) :
    (calculateLine x y xD yD length).map List.length = some length ∧
    (calculateLine x y xD yD length).bind List.head? = some (x, y) := by
  obtain ⟨l, hl', hlen, hhead⟩ := lineLoop_spec (|xD - x|) (|yD - y|)
    (if x < xD then 1 else -1) (if y < yD then 1 else -1) length length 0 x y
    (if |xD - x| > |yD - y| then |xD - x| else -|yD - y|) (by omega) (by omega)
  rw [calculateLine]
  simp only [hl']
  constructor
  · show some l.length = some length
    rw [hlen, Nat.sub_zero]
  · show l.head? = some (x, y)
    exact hhead

/-- Witness for `calculateLine_spec` at origin `(3, 4)`, target `(10, -2)`,
`length = 5`. -/
theorem calculateLine_spec_witness :
    1 ≤ 5 ∧ (calculateLine 3 4 10 (-2) 5).map List.length = some 5 ∧
    (calculateLine 3 4 10 (-2) 5).bind List.head? = some (3, 4) :=
  ⟨by decide, (calculateLine_spec 3 4 10 (-2) 5 (by decide)).1,
    (calculateLine_spec 3 4 10 (-2) 5 (by decide)).2⟩

/-- A `matrix3d(sx,0,0,0, 0,sy,0,0, 0,0,1,0, tx,ty,0,1)` transform
descriptor: horizontal scale, vertical scale and translation.  The scale
factors are exact rationals standing for the quotients the source writes
into the style string. -/
structure T3 where
  sx : ℚ
  sy : ℚ
  tx : ℚ
  ty : ℚ
deriving DecidableEq

/-- `calculateIconResizeTransforms(x, y, height, contractHeight)` (source
lines 250-263): for each `dH` in `0 .. contractHeight`, a purely vertical
scale `(height - dH) / height` with translation `(x, y + dH)` and
horizontal scale exactly `1`. -/
def calculateIconResizeTransforms (x y height : Int) (contractHeight : Nat) : List T3 :=
  (List.range (contractHeight + 1)).map (fun dH =>
    { sx := 1
      sy := ((height : ℚ) - (dH : ℚ)) / (height : ℚ)
      tx := (x : ℚ)
      ty := (y : ℚ) + (dH : ℚ) })

/-- `calculateShadowResizeTransforms(x, y, width, height, contractHeight,
angle)` (source lines 279-295): rasterizes the reversed-angle segment
(`angle + π`, abstracted by its rounded target `(xD, yD)`) from origin
`(width, height)` over `contractHeight` points, then reads `p[dH]` for
`dH` in `0 .. contractHeight`.  `none` models a thrown exception or a
non-terminating rasterization: the point array has only `contractHeight`
entries, so the access `p[contractHeight]` is out of range for every
input and the function never produces a value. -/
def calculateShadowResizeTransforms (x y width height : Int) (contractHeight : Nat)
    (xD yD : Int) : Option (List T3) := do
  let p ← calculateLine width height xD yD contractHeight
  (List.range (contractHeight + 1)).mapM (fun dH =>
    match p[dH]? with
    | none => none
    | some pt => some
      { sx := (width : ℚ) / (pt.1 : ℚ)
        sy := (pt.2 : ℚ) / (height : ℚ)
        tx := (x : ℚ)
        ty := (y : ℚ) + (height : ℚ) - (pt.2 : ℚ) })

/-- The shadow-resize states actually compiled by `_calculateTransforms`
(source lines 827-835): despite the comment `TODO: use function
calculateShadowResizeTransforms`, the source calls
`calculateIconResizeTransforms(x, y, shadowSize[1], contractHeight)`. -/
def compiledShadowResizeTransforms (x y shadowHeight : Int) (contractHeight : Nat) : List T3 :=
  calculateIconResizeTransforms x y shadowHeight contractHeight

/-- C8 (evaluation at the failing input): with the default configuration
(`contractHeight = 12`), origin `(0, 0)` and a 62×41 shadow, the compiled
shadow-resize states are exactly the vertical-only icon-resize states —
every horizontal scale factor is `1` — while
`calculateShadowResizeTransforms` (for any rounded target of the reversed
angle, here `(45, 58)`) produces no value at all, because it reads one
point past the end of the rasterized segment. -/
theorem shadowResize_compiled_is_iconResize :
    compiledShadowResizeTransforms 0 0 41 12 = calculateIconResizeTransforms 0 0 41 12 ∧
    (compiledShadowResizeTransforms 0 0 41 12).map T3.sx = List.replicate 13 1 ∧
    calculateShadowResizeTransforms 0 0 62 41 12 45 58 = none := by
  refine ⟨rfl, by decide, by decide⟩

/-- The process-wide marker state touched by the registry operations:
`L.Marker._bouncingMarkers` (markers identified by a numeric id, in
insertion order) together with each marker's
`_bouncingMotion.isBouncing` flag.  A marker's `_bouncingOptions.exclusif`
flag is static configuration, passed separately as `cfg : Nat → Bool`. -/
structure MState where
  registry : List Nat
  motionBouncing : Nat → Bool

/-- The state before any marker bounces: empty registry, every
`isBouncing` flag `false`. -/
def initState : MState :=
  { registry := [], motionBouncing := fun _ => false }

/-- Assignment `marker._bouncingMotion.isBouncing = b`. -/
def setFlag (m : Nat) (b : Bool) (st : MState) : MState :=
  { st with motionBouncing := fun k => if k = m then b else st.motionBouncing k }

/-- `L.Marker.prototype.isBouncing` (source lines 546-548). -/
def isBouncing (m : Nat) (st : MState) : Bool := st.motionBouncing m

/-- `L.Marker.getBouncingMarkers` (source lines 418-420). -/
def getBouncingMarkers (st : MState) : List Nat := st.registry

/-- `L.Marker.stopBouncingMarkers` (source lines 426-431): shifts every
marker out of the registry and clears its `isBouncing` flag. -/
def stopBouncingMarkers (st : MState) : MState :=
  { registry := []
    motionBouncing := fun k => if k ∈ st.registry then false else st.motionBouncing k }

/-- `L.Marker._stopEclusifMarkerBouncing` (source lines 471-483): walks
the registry from the end, clearing the flag of, and splicing out, every
marker whose own configuration is exclusive. -/
def stopExclusifMarkerBouncing (cfg : Nat → Bool) (st : MState) : MState :=
  { registry := st.registry.filter (fun k => !cfg k)
    motionBouncing := fun k =>
      if k ∈ st.registry ∧ cfg k = true then false else st.motionBouncing k }

/-- `L.Marker._addBouncingMarker(marker, exclusif)` (source lines
441-448): if the argument or the marker's own configuration is exclusive,
first stop all bouncing markers; otherwise stop the exclusive ones; then
push the marker. -/
def addBouncingMarker (cfg : Nat → Bool) (m : Nat) (exclusif : Bool) (st : MState) : MState :=
  let st' := if exclusif || cfg m then stopBouncingMarkers st
             else stopExclusifMarkerBouncing cfg st
  { st' with registry := st'.registry ++ [m] }

/-- `L.Marker._removeBouncingMarker` (source lines 455-466): walks the
registry from the end and splices out the first match found — i.e. the
last occurrence. -/
def removeBouncingMarker (m : Nat) (st : MState) : MState :=
  { st with registry := (st.registry.reverse.erase m).reverse }

/-- The registry effect of `L.Marker.prototype.bounce` (source lines
715-716): set `isBouncing = true`, then `_addBouncingMarker(marker,
exclusif)` where `exclusif` is read from the marker's own options. -/
def bounce (cfg : Nat → Bool) (m : Nat) (st : MState) : MState :=
  addBouncingMarker cfg m (cfg m) (setFlag m true st)

/-- `L.Marker.prototype.stopBouncing` (source lines 730-735): clear the
flag, remove the marker. -/
def stopBouncing (m : Nat) (st : MState) : MState :=
  removeBouncingMarker m (setFlag m false st)

/-- The all-markers-non-exclusive configuration. -/
def noExclusif : Nat → Bool := fun _ => false

/-- C4 (counterexample): `bounce` does not check whether the marker is
already bouncing — bouncing the non-exclusive marker `7` twice from the
initial state leaves it registered twice in `L.Marker._bouncingMarkers`. -/
theorem bounce_twice_duplicates_counterexample :
    getBouncingMarkers (bounce noExclusif 7 (bounce noExclusif 7 initState)) = [7, 7] := by
  decide

/-- C4 (amended): starting a bounce on a marker that is already bouncing
registers it again rather than being rejected: for a non-exclusive marker
`m`, two consecutive `bounce` calls leave the registry at its
exclusive-filtered previous content followed by two copies of `m`.  Only
the exclusive branch clears the registry before inserting. -/
theorem bounce_rebounce_duplicates (cfg : Nat → Bool) (m : Nat) (st : MState)
    (hm : cfg m = false) :
    getBouncingMarkers (bounce cfg m (bounce cfg m st)) =
      st.registry.filter (fun k => !cfg k) ++ [m, m] := by
  rw [getBouncingMarkers, bounce, bounce, addBouncingMarker, addBouncingMarker]
  simp only [hm, Bool.or_self, if_neg Bool.false_ne_true]
  rw [stopExclusifMarkerBouncing, stopExclusifMarkerBouncing]
  simp only [setFlag]
  rw [List.filter_append, List.filter_filter]
  simp [hm, List.append_assoc]

/-- Witness for `bounce_rebounce_duplicates` with marker `7`, state
`initState` and all markers non-exclusive. -/
theorem bounce_rebounce_duplicates_witness :
    noExclusif 7 = false ∧
    getBouncingMarkers (bounce noExclusif 7 (bounce noExclusif 7 initState)) =
      initState.registry.filter (fun k => !noExclusif k) ++ [7, 7] :=
  ⟨rfl, bounce_rebounce_duplicates noExclusif 7 initState rfl⟩

/-- C5: adding a marker with the exclusive flag requested (or configured)
stops every registered marker and leaves the registry holding exactly that
marker; adding a non-exclusive marker stops and removes exactly the
currently-registered exclusive markers before inserting; two non-exclusive
markers added to the empty registry coexist as `[m1, m2]`. -/
theorem addBouncingMarker_spec :
    (∀ (cfg : Nat → Bool) (m : Nat) (ex : Bool) (st : MState),
      (ex || cfg m) = true →
        (addBouncingMarker cfg m ex st).registry = [m] ∧
        ∀ k ∈ st.registry, (addBouncingMarker cfg m ex st).motionBouncing k = false) ∧
    (∀ (cfg : Nat → Bool) (m : Nat) (st : MState),
      cfg m = false →
        (addBouncingMarker cfg m false st).registry =
          st.registry.filter (fun k => !cfg k) ++ [m] ∧
        ∀ k ∈ st.registry, cfg k = true →
          (addBouncingMarker cfg m false st).motionBouncing k = false) ∧
    (∀ (cfg : Nat → Bool) (m1 m2 : Nat),
      cfg m1 = false → cfg m2 = false →
        (addBouncingMarker cfg m2 false (addBouncingMarker cfg m1 false initState)).registry =
          [m1, m2]) := by
  refine ⟨?_, ?_, ?_⟩
  · intro cfg m ex st hex
    rw [addBouncingMarker]
    simp only [hex, if_pos rfl]
    constructor
    · rfl
    · intro k hk
      simp [stopBouncingMarkers, hk]
  · intro cfg m st hm
    rw [addBouncingMarker]
    simp only [Bool.false_or, hm, if_neg Bool.false_ne_true]
    constructor
    · rfl
    · intro k hk hck
      simp [stopExclusifMarkerBouncing, hk, hck]
  · intro cfg m1 m2 h1 h2
    rw [addBouncingMarker, addBouncingMarker]
    simp only [Bool.false_or, h1, h2, if_neg Bool.false_ne_true]
    rw [stopExclusifMarkerBouncing, stopExclusifMarkerBouncing]
    simp [initState, h1]

/-- Witness for `addBouncingMarker_spec`: exclusive add of marker `5`
over a registry holding `9`, non-exclusive add of `6` over the same, and
coexistence of `1` and `2`. -/
theorem addBouncingMarker_spec_witness :
    (true || noExclusif 5) = true ∧
    (addBouncingMarker noExclusif 5 true
      { registry := [9], motionBouncing := fun _ => true }).registry = [5] ∧
    noExclusif 6 = false ∧
    (addBouncingMarker noExclusif 6 false
      { registry := [9], motionBouncing := fun _ => true }).registry =
        ([9] : List Nat).filter (fun k => !noExclusif k) ++ [6] ∧
    noExclusif 1 = false ∧ noExclusif 2 = false ∧
    (addBouncingMarker noExclusif 2 false
      (addBouncingMarker noExclusif 1 false initState)).registry = [1, 2] :=
  ⟨rfl,
    (addBouncingMarker_spec.1 noExclusif 5 true
      { registry := [9], motionBouncing := fun _ => true } rfl).1,
    rfl,
    (addBouncingMarker_spec.2.1 noExclusif 6
      { registry := [9], motionBouncing := fun _ => true } rfl).1,
    rfl, rfl,
    addBouncingMarker_spec.2.2 noExclusif 1 2 rfl rfl⟩

/-- The numeric and boolean fields of `_bouncingOptions` (source lines
491-499).  The `shadowAngle` field (a floating-point angle) is omitted:
it is copied opaquely by the merge and no other modelled computation
reads it. -/
structure BouncingOptions where
  bounceHeight : Int
  contractHeight : Int
  bounceSpeed : Int
  contractSpeed : Int
  elastic : Bool
  exclusif : Bool
deriving DecidableEq

/-- The prototype defaults (source lines 491-499). -/
def defaultBouncingOptions : BouncingOptions :=
  { bounceHeight := 15, contractHeight := 12, bounceSpeed := 52
    contractSpeed := 52, elastic := true, exclusif := false }

/-- A partial options object passed to `setBouncingOptions`: a field set
to `none` is absent from the passed object. -/
structure BouncingOptionsPatch where
  bounceHeight : Option Int := none
  contractHeight : Option Int := none
  bounceSpeed : Option Int := none
  contractSpeed : Option Int := none
  elastic : Option Bool := none
  exclusif : Option Bool := none

/-- The merge performed by `L.Marker.prototype.setBouncingOptions`
(source lines 511-529): for every option key, copy the passed value when
the passed object has it, otherwise copy the prototype default.  The
source performs no validation of any field. -/
def setBouncingOptionsMerge (defaults : BouncingOptions) (p : BouncingOptionsPatch) :
    BouncingOptions :=
  { bounceHeight := p.bounceHeight.getD defaults.bounceHeight
    contractHeight := p.contractHeight.getD defaults.contractHeight
    bounceSpeed := p.bounceSpeed.getD defaults.bounceSpeed
    contractSpeed := p.contractSpeed.getD defaults.contractSpeed
    elastic := p.elastic.getD defaults.elastic
    exclusif := p.exclusif.getD defaults.exclusif }

/-- A patch setting only `bounceSpeed`, to `0`. -/
def patchSpeedZero : BouncingOptionsPatch := { bounceSpeed := some 0 }

/-- A patch setting `bounceHeight` and `bounceSpeed` to `0`. -/
def patchHeightSpeedZero : BouncingOptionsPatch :=
  { bounceHeight := some 0, bounceSpeed := some 0 }

/-- C9 (counterexample): `setBouncingOptions` with the non-positive speed
`0` does not fail — the merge stores `0` into the marker's configuration
(previously the default `52`), so the value is neither rejected nor is
the configuration left unchanged. -/
theorem setBouncingOptions_accepts_zero_speed :
    (setBouncingOptionsMerge defaultBouncingOptions patchSpeedZero).bounceSpeed = 0 ∧
    defaultBouncingOptions.bounceSpeed = 52 :=
  ⟨rfl, rfl⟩

/-- C9 (amended): `setBouncingOptions` performs no validation: any
non-positive height or speed is stored verbatim into the marker's
configuration, and with a non-positive `bounceHeight` the automatic
timeline recalculation it triggers (`calculateDelays` on the new height)
never terminates — no `InvalidExtent` or `InvalidSpeed` error exists. -/
theorem setBouncingOptions_no_validation (d : BouncingOptions)
    (p : BouncingOptionsPatch) (hgt spd : Int)
    (hp : p.bounceHeight = some hgt) (hs : p.bounceSpeed = some spd)
    (hgt0 : hgt ≤ 0) :
    (setBouncingOptionsMerge d p).bounceHeight = hgt ∧
    (setBouncingOptionsMerge d p).bounceSpeed = spd ∧
    calculateDelaysDiverges (setBouncingOptionsMerge d p).bounceHeight
      (setBouncingOptionsMerge d p).bounceSpeed := by
  have hb : (setBouncingOptionsMerge d p).bounceHeight = hgt := by
    rw [setBouncingOptionsMerge, hp]; rfl
  have hsp : (setBouncingOptionsMerge d p).bounceSpeed = spd := by
    rw [setBouncingOptionsMerge, hs]; rfl
  refine ⟨hb, hsp, ?_⟩
  intro fuel
  rw [hb, hsp, calculateDelaysFuel, fillLoop_nonpos hgt spd fuel hgt [] hgt0]
  rfl

/-- Witness for `setBouncingOptions_no_validation`:
defaults patched with `bounceHeight = 0`, `bounceSpeed = 0`. -/
theorem setBouncingOptions_no_validation_witness :
    patchHeightSpeedZero.bounceHeight = some 0 ∧
    patchHeightSpeedZero.bounceSpeed = some 0 ∧
    (0 : Int) ≤ 0 ∧
    ((setBouncingOptionsMerge defaultBouncingOptions patchHeightSpeedZero).bounceHeight = 0 ∧
     (setBouncingOptionsMerge defaultBouncingOptions patchHeightSpeedZero).bounceSpeed = 0 ∧
     calculateDelaysDiverges
       (setBouncingOptionsMerge defaultBouncingOptions patchHeightSpeedZero).bounceHeight
       (setBouncingOptionsMerge defaultBouncingOptions patchHeightSpeedZero).bounceSpeed) :=
  ⟨rfl, rfl, by decide,
    setBouncingOptions_no_validation defaultBouncingOptions patchHeightSpeedZero 0 0
      rfl rfl (by decide)⟩

/-- The start of one Moving phase of the `bounce` closure (source lines
651-656): `if (times !== null) { if (!--times) motion.isBouncing = false; }`.
`times` is a local variable of the closure (`none` for unbounded
bouncing); the registry is not touched anywhere in `move()` or
`resize()`. -/
def movePhaseStart (m : Nat) (times : Option Int) (st : MState) : Option Int × MState :=
  match times with
  | none => (none, st)
  | some t => if t - 1 = 0 then (some (t - 1), setFlag m false st) else (some (t - 1), st)

/-- The phase chaining of the `bounce` closure (source lines 651-713):
each iteration is one Moving phase (with its cycle decrement); at its end
the source either plays the Resizing phase and re-checks `isBouncing`, or
(non-elastic) checks `isBouncing` directly — in both cases another Moving
phase follows exactly when the flag is still set.  The Resizing phase
touches neither `times`, the flag, nor the registry, so it needs no state
of its own.  `fuel` bounds the number of Moving phases simulated. -/
def runPhases (m : Nat) : Nat → Option Int → MState → MState
  | 0, _, st => st
  | fuel + 1, times, st =>
    let p := movePhaseStart m times st
    if p.2.motionBouncing m then runPhases m fuel p.1 p.2 else p.2

/-- `marker.bounce(times)` with a finite cycle count `n`, run until the
scheduler stops chaining Moving phases (source lines 715-717 followed by
the timed callbacks). -/
def bounceFinite (cfg : Nat → Bool) (m : Nat) (n : Int) (st : MState) (fuel : Nat) : MState :=
  runPhases m fuel (some n) (bounce cfg m st)

lemma movePhaseStart_registry (m : Nat) (times : Option Int) (st : MState) :
    (movePhaseStart m times st).2.registry = st.registry := by
  cases times with
  | none => rfl
  | some t =>
    by_cases h : t - 1 = 0
    · simp [movePhaseStart, h, setFlag]
    · simp [movePhaseStart, h]

lemma runPhases_registry (m : Nat) :
    ∀ fuel times st, (runPhases m fuel times st).registry = st.registry := by
  intro fuel
  induction fuel with
  | zero => intro times st; rfl
  | succ f ih =>
    intro times st
    rw [runPhases]
    by_cases h : (movePhaseStart m times st).2.motionBouncing m
    · rw [if_pos h, ih]
      exact movePhaseStart_registry m times st
    · rw [if_neg h]
      exact movePhaseStart_registry m times st

lemma runPhases_clears (m : Nat) :
    ∀ fuel (k : Nat) st, 1 ≤ k → k ≤ fuel →
      (runPhases m fuel (some (k : Int)) st).motionBouncing m = false := by
  intro fuel
  induction fuel with
  | zero => intro k st h1 h2; omega
  | succ f ih =>
    intro k st h1 h2
    rw [runPhases]
    by_cases hk : k = 1
    · subst hk
      have hz : (1 : Int) - 1 = 0 := by norm_num
      have hmp : movePhaseStart m (some ((1 : Nat) : Int)) st =
          (some 0, setFlag m false st) := by
        simp [movePhaseStart]
      rw [hmp]
      have hflag : (setFlag m false st).motionBouncing m = false := by
        simp [setFlag]
      by_cases hb : (some ((0 : Int)), setFlag m false st).2.motionBouncing m
      · rw [if_pos hb]
        simp only at hb
        rw [hflag] at hb
        exact absurd hb (by simp)
      · rw [if_neg hb]
        exact hflag
    · have hk2 : 2 ≤ k := by omega
      have hz : ¬ ((k : Int) - 1 = 0) := by
        have : (2 : Int) ≤ (k : Int) := by exact_mod_cast hk2
        omega
      have hmp : movePhaseStart m (some ((k : Nat) : Int)) st =
          (some ((k : Int) - 1), st) := by
        simp [movePhaseStart, hz]
      rw [hmp]
      have hc : ((k : Int) - 1) = (((k - 1 : Nat) : Nat) : Int) := by
        omega
      by_cases hb : (some ((k : Int) - 1), st).2.motionBouncing m
      · rw [if_pos hb]
        simp only
        rw [hc]
        exact ih (k - 1) st (by omega) (by omega)
      · rw [if_neg hb]
        simpa using hb

/-- C10: after `bounce(n)` with a finite cycle count `n ≥ 1` runs to
completion (every Moving phase played), the marker's `isBouncing` flag is
`false` — it is cleared at the start of the final Moving phase — yet the
marker is still present in `L.Marker._bouncingMarkers`, whose content the
animation callbacks never modify; only the explicit stop operations
remove entries. -/
theorem finiteCycles_clear_flag_keep_registry (cfg : Nat → Bool) (m : Nat)
    (st : MState) (n fuel : Nat) (h1 : 1 ≤ n) (h2 : n ≤ fuel) :
    isBouncing m (bounceFinite cfg m (n : Int) st fuel) = false ∧
    m ∈ getBouncingMarkers (bounceFinite cfg m (n : Int) st fuel) ∧
    getBouncingMarkers (bounceFinite cfg m (n : Int) st fuel) =
      getBouncingMarkers (bounce cfg m st) := by
  refine ⟨runPhases_clears m fuel n _ h1 h2, ?_, runPhases_registry m fuel _ _⟩
  rw [getBouncingMarkers, bounceFinite, runPhases_registry m fuel]
  simp [bounce, addBouncingMarker]

/-- Witness for `finiteCycles_clear_flag_keep_registry`: marker `3`
bounced for `2` cycles from the initial state, `fuel = 3`. -/
theorem finiteCycles_clear_flag_keep_registry_witness :
    1 ≤ 2 ∧ 2 ≤ 3 ∧
    (isBouncing 3 (bounceFinite noExclusif 3 ((2 : Nat) : Int) initState 3) = false ∧
     3 ∈ getBouncingMarkers (bounceFinite noExclusif 3 ((2 : Nat) : Int) initState 3)) :=
  ⟨by decide, by decide,
    (finiteCycles_clear_flag_keep_registry noExclusif 3 initState 2 3
      (by decide) (by decide)).1,
    (finiteCycles_clear_flag_keep_registry noExclusif 3 initState 2 3
      (by decide) (by decide)).2.1⟩

end SMB
